import Mathlib

/-!
Verification development for the `paleo_bench` result-reconciliation core
(`src/paleo_bench/results.py`, `src/paleo_bench/runner.py`,
`src/paleo_bench/metrics.py`), shallowly embedded in Lean.

Modelling conventions:
* Persisted JSON rows are records whose fields hold `Option String` /
  `Option ℚ` values: `none` models an absent field or a JSON `null`.
  Non-string / non-numeric junk values for these fields are outside the
  modelled value space (the code only ever writes strings, numbers, or null
  into them).
* Python floats are modelled exactly as rationals (`ℚ`); `round(x, n)` is
  modelled as exact decimal rounding, ties half-to-even, on the rational
  value.
* `str.strip` / `str.lower` are modelled over the ASCII range; the
  error-marker strings they are compared against are pure ASCII.
* Filesystem effects (`recompute_comparisons` reading ground-truth files,
  `write_results` persisting) are modelled by an explicit map from path
  strings to file contents.
-/

set_option maxRecDepth 4000

/-- ASCII part of the whitespace set stripped by Python `str.strip()`. -/
def isPyWs (c : Char) : Bool :=
  c = ' ' || c = '\t' || c = '\n' || c = '\r' || c = '\x0b' || c = '\x0c'

/-- Python `s.strip()` (ASCII-whitespace model). -/
def pyStrip (s : String) : String :=
  String.mk (((s.data.dropWhile isPyWs).reverse.dropWhile isPyWs).reverse)

/-- Python `s.lower()`; ASCII model (`Char.toLower` lowers exactly `A`–`Z`),
which is faithful on the ASCII error markers being searched for. -/
def pyLower (s : String) : String :=
  String.mk (s.data.map Char.toLower)

/-- `needle` occurs at the start of `hay`. -/
def leadsWith : List Char → List Char → Bool
  | [], _ => true
  | _ :: _, [] => false
  | a :: as, b :: bs => a = b && leadsWith as bs

/-- Python substring test `needle in hay`. -/
def hasSub (needle : List Char) : List Char → Bool
  | [] => needle.isEmpty
  | c :: t => leadsWith needle (c :: t) || hasSub needle t

/-- The fixed marker list of `_looks_like_error_text`
(results.py lines 105–112). -/
def errorMarkers : List String :=
  ["error:", "badrequesterror", "anthropicexception", "rate limit",
   "timeout", "traceback"]

/-- results.py `_looks_like_error_text` (lines 99–113).  A non-string value
(absent / null) enters as `none` and fails the `isinstance` check. -/
def looksLikeErrorText : Option String → Bool
  | none => false
  | some v =>
    let text := pyLower (pyStrip v)
    if text.data.isEmpty then false
    else errorMarkers.any (fun m => hasSub m.data text.data)

/-- runner.py `ResultKey` (line 47):
`(model_id, group_name, image_url, sample_label, ground_truth_path)`. -/
abbrev ResultKey := String × String × String × String × String

/-- Python truthiness test `not x` for an optional string. -/
def falsyStr : Option String → Bool
  | none => true
  | some s => s.data.isEmpty

/-- Python `x or ""` for an optional string (`None` and `""` both give `""`). -/
def orEmpty : Option String → String
  | none => ""
  | some s => s

/-- runner.py `make_result_key` (lines 50–64).  `sample_label` may be absent
(Python `None`); `sample_label or ""` coerces any falsy label to `""`. -/
def make_result_key (group_name : String) (sample_label : Option String)
    (image_url : String) (ground_truth_path : String) (model_id : String) :
    ResultKey :=
  (model_id, group_name, image_url, orEmpty sample_label, ground_truth_path)

/-- The `response_metadata` sub-object of a persisted row (results.py
lines 58–63); each field is a number or absent/null. -/
structure RespMeta where
  input_tokens : Option ℚ := none
  output_tokens : Option ℚ := none
  cost : Option ℚ := none
  latency_seconds : Option ℚ := none
deriving DecidableEq

/-- One entry of the persisted `results` list (results.py lines 48–64).
`metrics` is the stored metrics object, modelled as a string-keyed
association list of numbers (JSON objects have unique keys). -/
structure Row where
  model : Option String := none
  group : Option String := none
  image : Option String := none
  label : Option String := none
  ground_truth_file : Option String := none
  ground_truth_text : Option String := none
  model_output : Option String := none
  error : Option String := none
  metrics : Option (List (String × ℚ)) := none
  response_metadata : Option RespMeta := none
deriving DecidableEq

/-- results.py `_row_key` (lines 81–96). -/
def _row_key (row : Row) : Option ResultKey :=
  if falsyStr row.model || falsyStr row.group || falsyStr row.image
      || falsyStr row.ground_truth_file then
    none
  else
    some (make_result_key (orEmpty row.group) (some (orEmpty row.label))
      (orEmpty row.image) (orEmpty row.ground_truth_file) (orEmpty row.model))

/-- results.py `_is_completed_row` (lines 116–128). -/
def _is_completed_row (row : Row) : Bool :=
  if (match row.error with
      | some e => !(pyStrip e).data.isEmpty
      | none => false) then false
  else if (match row.model_output with
      | some s => (pyStrip s).data.isEmpty
      | none => true) then false
  else !looksLikeErrorText row.model_output

/-- A string-keyed summary object (`aggregate_metrics` output plus counters),
as an association list of numeric values. -/
abbrev Summary := List (String × ℚ)

/-- One entry of `benchmark.config.models` (only the `label` field is read by
the reconciliation engine; `id` is carried along). -/
structure ModelCfg where
  label : Option String := none
  id : Option String := none
deriving DecidableEq

/-- The persisted result document (results.py `_build_json` shape): the model
roster from the `benchmark.config` header, the row list, and the two summary
maps.  Header fields not read by the reconciliation engine are omitted. -/
structure ResultsData where
  models : List ModelCfg := []
  results : List Row := []
  model_summaries : List (String × Summary) := []
  group_summaries : List (String × List (String × Summary)) := []
deriving DecidableEq

/-- results.py `completed_result_keys` (lines 268–283).  `model_labels`
models the optional set argument (`none` = Python `None`); the guard mirrors
`if model_labels and key[0] not in model_labels: continue` — an empty
supplied set is falsy, so it disables filtering. -/
def completed_result_keys (data : ResultsData)
    (model_labels : Option (List String)) : Finset ResultKey :=
  data.results.foldl
    (fun keys row =>
      match _row_key row with
      | none => keys
      | some key =>
        if (match model_labels with
            | none => false
            | some ls => !ls.isEmpty && !ls.contains key.1) then keys
        else if !_is_completed_row row then keys
        else insert key keys)
    ∅

/-- First-match lookup in a string/key-indexed association list (the
observable behaviour of a Python dict access). -/
def alookup [DecidableEq κ] (k : κ) : List (κ × α) → Option α
  | [] => none
  | p :: t => if p.1 = k then some p.2 else alookup k t

/-- Python `d = dict(base); d.update(upd)`: existing keys keep their position
and take `upd`'s value; keys new in `upd` are appended in `upd` order. -/
def dictUpdate [DecidableEq κ] (base upd : List (κ × α)) : List (κ × α) :=
  base.map (fun p =>
    match alookup p.1 upd with
    | some v => (p.1, v)
    | none => p)
  ++ upd.filter (fun p => !base.any (fun q => q.1 = p.1))

/-- One iteration of the two merge loops of `_merge_existing_results`
(results.py lines 343–355).  The state is the pair
(`merged_rows` as an insertion-ordered association list, `passthrough_rows`);
a key hit replaces the stored row in place (Python dict assignment), a miss
appends at the end. -/
def mergeStep (st : List (ResultKey × Row) × List Row) (row : Row) :
    List (ResultKey × Row) × List Row :=
  match _row_key row with
  | none => (st.1, st.2 ++ [row])
  | some key =>
    if st.1.any (fun p => p.1 = key) then
      (st.1.map (fun p => if p.1 = key then (key, row) else p), st.2)
    else
      (st.1 ++ [(key, row)], st.2)

/-- The row reconciliation of `_merge_existing_results` (results.py lines
339–357): existing rows first, then new rows, then
`passthrough_rows + list(merged_rows.values())`. -/
def mergeResults (newRows existingRows : List Row) : List Row :=
  let st1 := existingRows.foldl mergeStep ([], [])
  let st2 := newRows.foldl mergeStep st1
  st2.2 ++ st2.1.map Prod.snd

/-- First-seen key collection: the key sequence a Python dict acquires while
the merge loops run, starting from initial key list `ks`. -/
def fsAux (ks : List ResultKey) (rows : List Row) : List ResultKey :=
  rows.foldl
    (fun ks row =>
      match _row_key row with
      | none => ks
      | some k => if k ∈ ks then ks else ks ++ [k])
    ks

/-- Keys of the keyed rows of `rows` in order of first occurrence. -/
def firstSeenKeys (rows : List Row) : List ResultKey :=
  fsAux [] rows

/-- The last row of `rows` whose identity key is `k` (the row a later
duplicate leaves in the merged mapping). -/
def lastWithKey (k : ResultKey) (rows : List Row) : Option Row :=
  (rows.filter (fun r => decide (_row_key r = some k))).getLast?

/-- metrics.py `MetricScores` (lines 12–21); float fields as `ℚ`, int fields
as `ℤ`. -/
structure MetricScores where
  cer : ℚ
  wer : ℚ
  cer_case_insensitive : ℚ
  wer_case_insensitive : ℚ
  levenshtein_distance : ℤ
  normalized_levenshtein_similarity : ℚ
  char_count_reference : ℤ
  word_count_reference : ℤ
deriving DecidableEq

/-- Python `int(x)` on a number: truncation toward zero. -/
def pyInt (q : ℚ) : ℤ :=
  if 0 ≤ q then ⌊q⌋ else ⌈q⌉

/-- Round a rational to the nearest integer, ties to even (Python's rounding
mode, applied here to the exact rational value). -/
def roundHalfEven (q : ℚ) : ℤ :=
  let f := ⌊q⌋
  let r := q - f
  if r < 1 / 2 then f
  else if 1 / 2 < r then f + 1
  else if Even f then f else f + 1

/-- Python `round(q, n)` on the exact rational value. -/
def pyRound (q : ℚ) (n : ℕ) : ℚ :=
  (roundHalfEven (q * 10 ^ n) : ℚ) / 10 ^ n

/-- `statistics.mean` (exact). -/
def meanQ (l : List ℚ) : ℚ :=
  l.sum / l.length

/-- Insert into a sorted list (used to model `sorted(data)`). -/
def insertSorted (x : ℚ) : List ℚ → List ℚ
  | [] => [x]
  | y :: t => if x ≤ y then x :: y :: t else y :: insertSorted x t

/-- `sorted(data)` for rationals. -/
def sortQ (l : List ℚ) : List ℚ :=
  l.foldr insertSorted []

/-- `statistics.median`: middle element of the sorted data, or the average of
the two middle elements (only applied to non-empty data). -/
def medianQ (l : List ℚ) : ℚ :=
  let s := sortQ l
  let n := s.length
  if n % 2 = 1 then s.getD (n / 2) 0
  else (s.getD (n / 2 - 1) 0 + s.getD (n / 2) 0) / 2

/-- Python `min(list)` on a non-empty list. -/
def minQ : List ℚ → ℚ
  | [] => 0
  | h :: t => t.foldl min h

/-- Python `max(list)` on a non-empty list. -/
def maxQ : List ℚ → ℚ
  | [] => 0
  | h :: t => t.foldl max h

/-- metrics.py `aggregate_metrics` `float_fields` (lines 80–83), as
field-name / accessor pairs. -/
def aggFloatFields : List (String × (MetricScores → ℚ)) :=
  [("cer", fun s => s.cer),
   ("wer", fun s => s.wer),
   ("cer_case_insensitive", fun s => s.cer_case_insensitive),
   ("wer_case_insensitive", fun s => s.wer_case_insensitive),
   ("normalized_levenshtein_similarity",
     fun s => s.normalized_levenshtein_similarity)]

/-- metrics.py `aggregate_metrics` `int_fields` (line 84). -/
def aggIntFields : List (String × (MetricScores → ℚ)) :=
  [("levenshtein_distance", fun s => (s.levenshtein_distance : ℚ))]

/-- metrics.py `aggregate_metrics` (lines 76–94): empty input gives the empty
summary; otherwise mean/median/min/max per listed field, in field order. -/
def aggregate_metrics (scores : List MetricScores) : Summary :=
  if scores.isEmpty then []
  else
    (aggFloatFields ++ aggIntFields).foldr
      (fun p acc =>
        let values := scores.map p.2
        (p.1 ++ "_mean", meanQ values)
          :: (p.1 ++ "_median", medianQ values)
          :: (p.1 ++ "_min", minQ values)
          :: (p.1 ++ "_max", maxQ values)
          :: acc)
      []

/-- results.py `_metric_scores_from_row` (lines 131–149): all eight keys must
be present in the stored metrics object; float fields via `float()`, int
fields via `int()`. -/
def _metric_scores_from_row (row : Row) : Option MetricScores :=
  match row.metrics with
  | none => none
  | some m => do
    let cer ← alookup "cer" m
    let wer ← alookup "wer" m
    let cerci ← alookup "cer_case_insensitive" m
    let werci ← alookup "wer_case_insensitive" m
    let lev ← alookup "levenshtein_distance" m
    let nls ← alookup "normalized_levenshtein_similarity" m
    let ccr ← alookup "char_count_reference" m
    let wcr ← alookup "word_count_reference" m
    some ⟨cer, wer, cerci, werci, pyInt lev, nls, pyInt ccr, pyInt wcr⟩

/-- `dataclasses.asdict` on a `MetricScores` (field order preserved). -/
def metricsAsdict (m : MetricScores) : List (String × ℚ) :=
  [("cer", m.cer),
   ("wer", m.wer),
   ("cer_case_insensitive", m.cer_case_insensitive),
   ("wer_case_insensitive", m.wer_case_insensitive),
   ("levenshtein_distance", (m.levenshtein_distance : ℚ)),
   ("normalized_levenshtein_similarity", m.normalized_levenshtein_similarity),
   ("char_count_reference", (m.char_count_reference : ℚ)),
   ("word_count_reference", (m.word_count_reference : ℚ))]

/-- The per-model accumulators of `_recompute_model_summaries`
(results.py lines 157–163).  The source keeps seven parallel dicts with
identical key sets, updated in lockstep; they are modelled as one map to
this record. -/
structure MAcc where
  scores : List MetricScores := []
  failed : ℕ := 0
  input_tokens : ℤ := 0
  output_tokens : ℤ := 0
  total_tokens : ℤ := 0
  cost : ℚ := 0
  latency : ℚ := 0
deriving DecidableEq

/-- The zero accumulator a fresh model label starts from. -/
def accZero : MAcc := {}

/-- The per-row accumulator update of the `_recompute_model_summaries` loop
body (results.py lines 178–199). -/
def updateAcc (a : MAcc) (row : Row) : MAcc :=
  let failed := a.failed +
    (match row.error with
     | some e => if (pyStrip e).data.isEmpty then 0 else 1
     | none => 0)
  let scores :=
    match _metric_scores_from_row row with
    | some s => a.scores ++ [s]
    | none => a.scores
  match row.response_metadata with
  | none => { a with failed := failed, scores := scores }
  | some md =>
    let it := pyInt (md.input_tokens.getD 0)
    let ot := pyInt (md.output_tokens.getD 0)
    { scores := scores
      failed := failed
      input_tokens := a.input_tokens + it
      output_tokens := a.output_tokens + ot
      total_tokens := a.total_tokens + (it + ot)
      cost := a.cost + md.cost.getD 0
      latency := a.latency + md.latency_seconds.getD 0 }

/-- One row of the `_recompute_model_summaries` loop (results.py lines
165–199): a non-string model id is skipped; an unseen model id is
initialised, then its accumulators are updated. -/
def stepModel (assoc : List (String × MAcc)) (row : Row) :
    List (String × MAcc) :=
  match row.model with
  | none => assoc
  | some m =>
    let base :=
      if assoc.any (fun p => p.1 = m) then assoc else assoc ++ [(m, accZero)]
    base.map (fun p => if p.1 = m then (m, updateAcc p.2 row) else p)

/-- The initial accumulator map `{label: zero for label in model_labels}`. -/
def initAssoc (labels : List String) : List (String × MAcc) :=
  labels.foldl
    (fun a l => if a.any (fun p => p.1 = l) then a else a ++ [(l, accZero)])
    []

/-- The summary dict built for one model from its accumulators
(results.py lines 201–211). -/
def modelSummaryOfAcc (a : MAcc) : Summary :=
  aggregate_metrics a.scores ++
  [("samples_evaluated", (a.scores.length : ℚ)),
   ("samples_failed", (a.failed : ℚ)),
   ("total_input_tokens", (a.input_tokens : ℚ)),
   ("total_output_tokens", (a.output_tokens : ℚ)),
   ("total_tokens", (a.total_tokens : ℚ)),
   ("total_cost", pyRound a.cost 6),
   ("total_latency_seconds", pyRound a.latency 3)]

/-- results.py `_recompute_model_summaries` (lines 152–212).  The source
receives `model_labels` as a Python set, whose iteration order is
unspecified; it is passed here as a list in some order. -/
def recompute_model_summaries (rows : List Row) (labels : List String) :
    List (String × Summary) :=
  (rows.foldl stepModel (initAssoc labels)).map
    (fun p => (p.1, modelSummaryOfAcc p.2))

/-- The accumulator value that a single pass over exactly the rows carrying
model label `m` produces — the specification-side aggregate used to state
that model summaries are recomputed from the full row set. -/
def accOver (m : String) (rows : List Row) : MAcc :=
  (rows.filter (fun r => decide (r.model = some m))).foldl updateAcc accZero

/-- The per-(model, group) accumulators of `_recompute_group_summaries`
(results.py lines 216–221); six parallel nested dicts with identical key
sets, modelled as one nested map to this record. -/
structure GAcc where
  scores : List MetricScores := []
  input_tokens : ℤ := 0
  output_tokens : ℤ := 0
  total_tokens : ℤ := 0
  cost : ℚ := 0
  latency : ℚ := 0
deriving DecidableEq

/-- The zero group accumulator. -/
def gaccZero : GAcc := {}

/-- The per-row update of the `_recompute_group_summaries` loop body
(results.py lines 236–250). -/
def updateGAcc (a : GAcc) (row : Row) : GAcc :=
  let scores :=
    match _metric_scores_from_row row with
    | some s => a.scores ++ [s]
    | none => a.scores
  match row.response_metadata with
  | none => { a with scores := scores }
  | some md =>
    let it := pyInt (md.input_tokens.getD 0)
    let ot := pyInt (md.output_tokens.getD 0)
    { scores := scores
      input_tokens := a.input_tokens + it
      output_tokens := a.output_tokens + ot
      total_tokens := a.total_tokens + (it + ot)
      cost := a.cost + md.cost.getD 0
      latency := a.latency + md.latency_seconds.getD 0 }

/-- `setdefault`-then-update on the inner (group-keyed) map. -/
def updInnerG (inner : List (String × GAcc)) (g : String) (row : Row) :
    List (String × GAcc) :=
  let base :=
    if inner.any (fun q => q.1 = g) then inner else inner ++ [(g, gaccZero)]
  base.map (fun q => if q.1 = g then (g, updateGAcc q.2 row) else q)

/-- One row of the `_recompute_group_summaries` loop (results.py lines
223–250): rows lacking a string model id or group name are skipped. -/
def stepGroup (assoc : List (String × List (String × GAcc))) (row : Row) :
    List (String × List (String × GAcc)) :=
  match row.model, row.group with
  | some m, some g =>
    let outer :=
      if assoc.any (fun p => p.1 = m) then assoc else assoc ++ [(m, [])]
    outer.map (fun p => if p.1 = m then (m, updInnerG p.2 g row) else p)
  | _, _ => assoc

/-- The summary dict built for one (model, group) cell (results.py lines
258–263). -/
def groupSummaryOfAcc (a : GAcc) : Summary :=
  aggregate_metrics a.scores ++
  [("total_input_tokens", (a.input_tokens : ℚ)),
   ("total_output_tokens", (a.output_tokens : ℚ)),
   ("total_tokens", (a.total_tokens : ℚ)),
   ("total_cost", pyRound a.cost 6),
   ("total_latency_seconds", pyRound a.latency 3)]

/-- results.py `_recompute_group_summaries` (lines 215–265): a model key is
always emitted, a group cell only when it collected at least one score. -/
def recompute_group_summaries (rows : List Row) :
    List (String × List (String × Summary)) :=
  (rows.foldl stepGroup []).map
    (fun p =>
      (p.1,
        (p.2.filter (fun q => !q.2.scores.isEmpty)).map
          (fun q => (q.1, groupSummaryOfAcc q.2))))

/-- The model-roster union of `_merge_existing_results` (results.py lines
363–369) plus the truthy label list passed to `_recompute_model_summaries`
(line 373): returns (merged `models` list, `model_labels`).  `known_labels`
is a Python set; its insertion order is used here. -/
def mergeRoster (newModels existingModels : List ModelCfg) :
    List ModelCfg × List String :=
  let known0 := newModels.foldl
    (fun ks m => if ks.contains m.label then ks else ks ++ [m.label]) []
  let st := existingModels.foldl
    (fun (st : List ModelCfg × List (Option String)) m =>
      match m.label with
      | some s =>
        if s.data.isEmpty then st
        else if st.2.contains (some s) then st
        else (st.1 ++ [m], st.2 ++ [some s])
      | none => st)
    (newModels, known0)
  (st.1,
    st.2.filterMap (fun o =>
      match o with
      | some s => if s.data.isEmpty then none else some s
      | none => none))

/-- results.py `_merge_existing_results` (lines 339–374): merge the row
lists, overlay the group-summary maps (`dict(existing)` updated with the new
map), union the model roster, and recompute the model summaries from the
merged rows with the unioned truthy label set. -/
def mergeExistingResults (newData existingData : ResultsData) : ResultsData :=
  let results := mergeResults newData.results existingData.results
  let group_summaries :=
    dictUpdate existingData.group_summaries newData.group_summaries
  let roster := mergeRoster newData.models existingData.models
  { models := roster.1
    results := results
    model_summaries := recompute_model_summaries results roster.2
    group_summaries := group_summaries }

/-- POSIX `Path.is_absolute`. -/
def isAbsolutePath (p : String) : Bool :=
  match p.data with
  | '/' :: _ => true
  | _ => false

/-- `config_dir / gt_path` when the stored path is relative
(results.py lines 311–313). -/
def resolvePath (configDir p : String) : String :=
  if isAbsolutePath p then p else configDir ++ "/" ++ p

/-- A filesystem snapshot: file path → contents (`none` = no such file). -/
abbrev FSMap := String → Option String

/-- The row loop body of `recompute_comparisons` (results.py lines 294–322),
over a filesystem snapshot `fs`.  `normalize` and `computeM` are the
external text-normalisation and metric oracles
(`normalize_for_comparison`, `compute_metrics`), opaque pure functions.
State: (rows processed so far, recomputed_rows, skipped_rows). -/
def recomputeStep (normalize : String → String)
    (computeM : String → String → MetricScores)
    (fs : FSMap) (configDir : String)
    (st : List Row × ℕ × ℕ) (row : Row) : List Row × ℕ × ℕ :=
  if (match row.error with
      | some e => !(pyStrip e).data.isEmpty
      | none => false) then
    (st.1 ++ [{ row with metrics := none }], st.2.1, st.2.2 + 1)
  else if (match row.model_output with
      | some s => (pyStrip s).data.isEmpty
      | none => true) then
    (st.1 ++ [{ row with metrics := none }], st.2.1, st.2.2 + 1)
  else if (match row.ground_truth_file with
      | some s => (pyStrip s).data.isEmpty
      | none => true) then
    (st.1 ++ [{ row with metrics := none }], st.2.1, st.2.2 + 1)
  else
    match fs (resolvePath configDir (orEmpty row.ground_truth_file)) with
    | none => (st.1 ++ [{ row with metrics := none }], st.2.1, st.2.2 + 1)
    | some txt =>
      (st.1 ++ [{ row with
          ground_truth_text := some (normalize txt)
          metrics :=
            some (metricsAsdict (computeM txt (orEmpty row.model_output))) }],
       st.2.1 + 1, st.2.2)

/-- The truthy model-label collection of `recompute_comparisons`
(results.py lines 324–332): configured labels, then labels seen on rows
(a Python set; insertion order used here). -/
def recomputeLabels (models : List ModelCfg) (rows : List Row) :
    List String :=
  let base := models.foldl
    (fun ls m =>
      match m.label with
      | some s =>
        if s.data.isEmpty then ls
        else if ls.contains s then ls else ls ++ [s]
      | none => ls)
    []
  rows.foldl
    (fun ls r =>
      match r.model with
      | some s =>
        if s.data.isEmpty then ls
        else if ls.contains s then ls else ls ++ [s]
      | none => ls)
    base

/-- results.py `recompute_comparisons` (lines 286–336): process every row,
then recompute both summary maps over the updated rows; returns the updated
document and `(recomputed_rows, skipped_rows)`. -/
def recompute_comparisons (normalize : String → String)
    (computeM : String → String → MetricScores)
    (fs : FSMap) (configDir : String) (data : ResultsData) :
    ResultsData × ℕ × ℕ :=
  let st := data.results.foldl
    (recomputeStep normalize computeM fs configDir) ([], 0, 0)
  ({ data with
      results := st.1
      model_summaries :=
        recompute_model_summaries st.1 (recomputeLabels data.models st.1)
      group_summaries := recompute_group_summaries st.1 },
   st.2.1, st.2.2)

/-- Specification-side skip predicate for one row of the recompute pathway,
as the claim phrases it: non-empty error, or empty/missing output text, or
empty/missing/non-existent ground-truth file (resolved against the base
directory when relative). -/
def rowSkips (fs : FSMap) (configDir : String) (row : Row) : Bool :=
  (match row.error with
   | some e => !(pyStrip e).data.isEmpty
   | none => false)
  || (match row.model_output with
      | some s => (pyStrip s).data.isEmpty
      | none => true)
  || (match row.ground_truth_file with
      | some s => (pyStrip s).data.isEmpty
      | none => true)
  || (fs (resolvePath configDir (orEmpty row.ground_truth_file))).isNone

/-- Specification-side row transformation of the recompute pathway: a skipped
row gets null metrics; otherwise the reference text is refreshed from the
ground-truth file and the metrics recomputed against the stored output. -/
def rowAfterRecompute (normalize : String → String)
    (computeM : String → String → MetricScores)
    (fs : FSMap) (configDir : String) (row : Row) : Row :=
  if rowSkips fs configDir row then { row with metrics := none }
  else
    let txt :=
      (fs (resolvePath configDir (orEmpty row.ground_truth_file))).getD ""
    { row with
        ground_truth_text := some (normalize txt)
        metrics :=
          some (metricsAsdict (computeM txt (orEmpty row.model_output))) }

/-- `output_path.with_suffix(output_path.suffix + ".tmp")`
(results.py lines 387, 398): the target path string with `.tmp` appended. -/
def tempPathOf (p : String) : String := p ++ ".tmp"

/-- The persistence step sequence shared by `write_results` (lines 386–392)
and `write_results_data` (lines 397–403), as atomic transitions on a
filesystem snapshot: write the serialized document to the temp file, fsync
it, rename it over the target.  `mkdir` touches no file, and the snapshot
model is already durable, so fsync is a no-op transition. -/
def persistSteps (content : String) (path : String) : List (FSMap → FSMap) :=
  [fun fs q => if q = tempPathOf path then some content else fs q,
   fun fs => fs,
   fun fs q =>
     if q = path then fs (tempPathOf path)
     else if q = tempPathOf path then none
     else fs q]

/-- Run the first `k` persistence steps (a crash after step `k` freezes the
filesystem there). -/
def runPrefix (steps : List (FSMap → FSMap)) (k : ℕ) (fs : FSMap) : FSMap :=
  (steps.take k).foldl (fun s f => f s) fs

/-- results.py `write_results_data` (lines 396–404); `encode` is the JSON
serializer (`json.dump`), opaque. -/
def write_results_data (encode : ResultsData → String) (data : ResultsData)
    (path : String) : List (FSMap → FSMap) :=
  persistSteps (encode data) path

/-- results.py `write_results` (lines 377–393): build the document (the
already-built in-memory document is passed as `data`), merge it over
`existing` when given (`if existing_data:`), then persist atomically. -/
def write_results (encode : ResultsData → String) (data : ResultsData)
    (existing : Option ResultsData) (path : String) :
    List (FSMap → FSMap) :=
  persistSteps
    (encode (match existing with
      | some e => mergeExistingResults data e
      | none => data))
    path

/-- A metrics object holding all eight stored fields (used as concrete test
data in several closed statements below). -/
def metricsFull : List (String × ℚ) :=
  [("cer", 0), ("wer", 0), ("cer_case_insensitive", 0),
   ("wer_case_insensitive", 0), ("levenshtein_distance", 2),
   ("normalized_levenshtein_similarity", 1), ("char_count_reference", 4),
   ("word_count_reference", 1)]

/-- Concrete persisted row: model `model-a`, group `g1`, valid metrics. -/
def rowC1 : Row :=
  { model := some "model-a", group := some "g1", image := some "img",
    label := some "s1", ground_truth_file := some "p.txt",
    model_output := some "out", metrics := some metricsFull }

/-- Concrete existing document: one keyed `model-a`/`g1` row, and a persisted
group-summary map whose `model-a` entry is an empty group map. -/
def exDocC1 : ResultsData :=
  { results := [rowC1], group_summaries := [("model-a", [])] }

/-- Concrete new-run document: `model-a` configured, no rows, no group
summaries. -/
def newDocC1 : ResultsData :=
  { models := [{ label := some "model-a", id := some "provider/a" }] }

/-- Concrete row with an empty `error` field but provider error text as its
output payload. -/
def rowMarkedOutput : Row :=
  { model := some "model-a", group := some "g1", image := some "img",
    label := some "x", ground_truth_file := some "p.txt", error := none,
    model_output := some "BadRequestError: AnthropicException - boom" }

/-- Document holding only `rowMarkedOutput`. -/
def docMarkedOutput : ResultsData := { results := [rowMarkedOutput] }

/-- Concrete keyed row with an absent `label` field. -/
def rowNoLabel : Row :=
  { model := some "m", group := some "g", image := some "i",
    ground_truth_file := some "p" }

/-- Concrete keyed row for a second model, distinct key from `rowNoLabel`. -/
def rowOther : Row :=
  { model := some "m2", group := some "g", image := some "i",
    ground_truth_file := some "p" }

/-- A concrete metrics block with non-zero reference counts. -/
def scoreC8 : MetricScores :=
  { cer := 0, wer := 0, cer_case_insensitive := 0,
    wer_case_insensitive := 0, levenshtein_distance := 3,
    normalized_levenshtein_similarity := 1, char_count_reference := 5,
    word_count_reference := 2 }

/- ----------------------------------------------------------------- -/
/- Theorems.                                                         -/
/- ----------------------------------------------------------------- -/

theorem string_eq_empty_iff (s : String) : s = "" ↔ s.data = [] := by
  cases s with
  | mk d => simp [String.ext_iff]

theorem is_completed_row_iff (r : Row) :
    _is_completed_row r = true ↔
      ((r.error = none ∨ ∃ e, r.error = some e ∧ (pyStrip e).data = [])
        ∧ (∃ s, r.model_output = some s ∧ (pyStrip s).data ≠ [])
        ∧ looksLikeErrorText r.model_output = false) := by
  unfold _is_completed_row
  cases herr : r.error with
  | none =>
    cases hout : r.model_output with
    | none => simp
    | some s =>
      by_cases hs : (pyStrip s).data.isEmpty = true <;>
        simp_all [List.isEmpty_iff]
  | some e =>
    by_cases he : (pyStrip e).data.isEmpty = true
    · cases hout : r.model_output with
      | none => simp_all [List.isEmpty_iff]
      | some s =>
        by_cases hs : (pyStrip s).data.isEmpty = true <;>
          simp_all [List.isEmpty_iff]
    · simp_all [List.isEmpty_iff]

theorem mem_completed_fold (rows : List Row) (init : Finset ResultKey)
    (k : ResultKey) :
    k ∈ rows.foldl
      (fun keys row =>
        match _row_key row with
        | none => keys
        | some key =>
          if !_is_completed_row row then keys
          else insert key keys)
      init
    ↔ k ∈ init
      ∨ ∃ r ∈ rows, _row_key r = some k ∧ _is_completed_row r = true := by
  induction rows generalizing init with
  | nil => simp
  | cons r t ih =>
    simp only [List.foldl_cons]
    cases hk : _row_key r with
    | none =>
      simp only [hk]
      rw [ih init]
      constructor
      · rintro (h | ⟨x, hx, h1, h2⟩)
        · exact Or.inl h
        · exact Or.inr ⟨x, List.mem_cons_of_mem _ hx, h1, h2⟩
      · rintro (h | ⟨x, hx, h1, h2⟩)
        · exact Or.inl h
        · rcases List.mem_cons.mp hx with rfl | hx'
          · rw [hk] at h1; cases h1
          · exact Or.inr ⟨x, hx', h1, h2⟩
    | some key =>
      by_cases hc : _is_completed_row r = true
      · simp only [hk, hc, Bool.not_true, if_false, Bool.false_eq_true,
          ite_false]
        rw [ih (insert key init)]
        constructor
        · rintro (h | ⟨x, hx, h1, h2⟩)
          · rcases Finset.mem_insert.mp h with rfl | h'
            · exact Or.inr ⟨r, List.mem_cons_self _ _, hk, hc⟩
            · exact Or.inl h'
          · exact Or.inr ⟨x, List.mem_cons_of_mem _ hx, h1, h2⟩
        · rintro (h | ⟨x, hx, h1, h2⟩)
          · exact Or.inl (Finset.mem_insert_of_mem h)
          · rcases List.mem_cons.mp hx with rfl | hx'
            · rw [hk] at h1
              injection h1 with h1'
              exact Or.inl (h1' ▸ Finset.mem_insert_self key init)
            · exact Or.inr ⟨x, hx', h1, h2⟩
      · have hc' : _is_completed_row r = false := by
          revert hc; cases _is_completed_row r <;> simp
        simp only [hk, hc', Bool.not_false, Bool.false_eq_true, ite_false,
          if_true]
        rw [ih init]
        constructor
        · rintro (h | ⟨x, hx, h1, h2⟩)
          · exact Or.inl h
          · exact Or.inr ⟨x, List.mem_cons_of_mem _ hx, h1, h2⟩
        · rintro (h | ⟨x, hx, h1, h2⟩)
          · exact Or.inl h
          · rcases List.mem_cons.mp hx with rfl | hx'
            · exact absurd h2 hc
            · exact Or.inr ⟨x, hx', h1, h2⟩

theorem completed_result_keys_none_eq (data : ResultsData) :
    completed_result_keys data none
      = data.results.foldl
        (fun keys row =>
          match _row_key row with
          | none => keys
          | some key =>
            if !_is_completed_row row then keys
            else insert key keys)
        ∅ := rfl

/-- C2: for every persisted document, `completed_result_keys` (with no model
filter) contains a key exactly when some row carries that Identity Key and is
completed: its `error` field is absent or blank, its `model_output` is a
string that is non-empty after stripping, and its (stripped, lowercased)
output contains none of the fixed error-signature substrings.  In
particular, a row with empty error whose output contains a known failure
marker contributes nothing to the skip-set. -/
theorem completed_keys_characterization :
    (∀ (data : ResultsData) (k : ResultKey),
      k ∈ completed_result_keys data none ↔
        ∃ r ∈ data.results, _row_key r = some k ∧
          (r.error = none ∨ ∃ e, r.error = some e ∧ (pyStrip e).data = []) ∧
          (∃ s, r.model_output = some s ∧ (pyStrip s).data ≠ []) ∧
          looksLikeErrorText r.model_output = false)
    ∧ completed_result_keys docMarkedOutput none = ∅ := by
  constructor
  · intro data k
    rw [completed_result_keys_none_eq, mem_completed_fold]
    simp only [Finset.not_mem_empty, false_or]
    exact exists_congr fun r =>
      and_congr_right fun _ =>
        and_congr_right fun _ => is_completed_row_iff r
  · decide

/-- C10: calling `completed_result_keys` with an empty `model_labels` set
performs no model filtering at all: it returns the same skip-set as passing
`None` — every completed row's key, for every model — rather than the empty
set.  (The filter guard `model_labels and key[0] not in model_labels` is
inert for a falsy empty set.) -/
theorem completed_keys_empty_label_set :
    (∀ data : ResultsData,
      completed_result_keys data (some []) = completed_result_keys data none)
    ∧ ∀ (data : ResultsData) (k : ResultKey),
        k ∈ completed_result_keys data (some []) ↔
          ∃ r ∈ data.results, _row_key r = some k
            ∧ _is_completed_row r = true := by
  refine ⟨fun _ => rfl, fun data k => ?_⟩
  rw [show completed_result_keys data (some [])
      = completed_result_keys data none from rfl,
    completed_result_keys_none_eq, mem_completed_fold]
  simp

theorem falsyStr_some_of_ne (s : String) (h : s ≠ "") :
    falsyStr (some s) = false := by
  cases s with
  | mk d =>
    cases d with
    | nil => exact absurd rfl h
    | cons c t => rfl

/-- C6: `make_result_key` is a pure total function that coerces a falsy
`sample_label` (`None` or `""`) to the empty string, so the key built from
live configuration with any falsy label equals the key `_row_key` derives
from a persisted row whose `label` field is absent, null, or empty (given
the four required row fields are present and non-empty); key equality is
structural over all five fields. -/
theorem make_result_key_label_coercion (r : Row) (m g i gt : String)
    (lbl : Option String)
    (hm : m ≠ "") (hg : g ≠ "") (hi : i ≠ "") (hgt : gt ≠ "")
    (hl : lbl = none ∨ lbl = some "")
    (hrm : r.model = some m) (hrg : r.group = some g)
    (hri : r.image = some i) (hrgt : r.ground_truth_file = some gt)
    (hrl : r.label = none ∨ r.label = some "") :
    make_result_key g lbl i gt m = (m, g, i, "", gt)
    ∧ _row_key r = some (make_result_key g lbl i gt m)
    ∧ ∀ k k' : ResultKey, k = k' ↔
        k.1 = k'.1 ∧ k.2.1 = k'.2.1 ∧ k.2.2.1 = k'.2.2.1
          ∧ k.2.2.2.1 = k'.2.2.2.1 ∧ k.2.2.2.2 = k'.2.2.2.2 := by
  have h1 : make_result_key g lbl i gt m = (m, g, i, "", gt) := by
    rcases hl with rfl | rfl <;> rfl
  refine ⟨h1, ?_, ?_⟩
  · rw [h1]
    unfold _row_key
    rw [hrm, hrg, hri, hrgt,
      falsyStr_some_of_ne m hm, falsyStr_some_of_ne g hg,
      falsyStr_some_of_ne i hi, falsyStr_some_of_ne gt hgt]
    rcases hrl with hrl | hrl <;> simp [hrl, make_result_key, orEmpty]
  · intro k k'
    constructor
    · rintro rfl; exact ⟨rfl, rfl, rfl, rfl, rfl⟩
    · rintro ⟨h1, h2, h3, h4, h5⟩
      obtain ⟨a, b, c, d, e⟩ := k
      obtain ⟨a', b', c', d', e'⟩ := k'
      simp_all

/-- Witness for C6 at a concrete row with an absent label. -/
theorem make_result_key_label_coercion_witness :
    make_result_key "g" none "i" "p" "m" = ("m", "g", "i", "", "p")
    ∧ _row_key rowNoLabel = some (make_result_key "g" none "i" "p" "m") := by
  have h := make_result_key_label_coercion rowNoLabel "m" "g" "i" "p" none
    (by decide) (by decide) (by decide) (by decide) (Or.inl rfl)
    rfl rfl rfl rfl (Or.inl rfl)
  exact ⟨h.1, h.2.1⟩

theorem alookup_append {κ α : Type} [DecidableEq κ] (k : κ)
    (a b : List (κ × α)) :
    alookup k (a ++ b)
      = match alookup k a with
        | some v => some v
        | none => alookup k b := by
  induction a with
  | nil => simp [alookup]
  | cons p t ih =>
    by_cases h : p.1 = k <;> simp [alookup, h, ih]

theorem alookup_eq_none_of_any_false {κ α : Type} [DecidableEq κ] (k : κ)
    (a : List (κ × α)) (h : a.any (fun p => p.1 = k) = false) :
    alookup k a = none := by
  induction a with
  | nil => rfl
  | cons p t ih =>
    simp only [List.any_cons, Bool.or_eq_false_iff] at h
    have hp : ¬p.1 = k := by simpa using h.1
    simp [alookup, hp, ih h.2]

theorem any_fst_iff_mem_keys {κ α : Type} [DecidableEq κ] (k : κ)
    (a : List (κ × α)) :
    a.any (fun p => p.1 = k) = true ↔ k ∈ a.map Prod.fst := by
  simp only [List.any_eq_true, List.mem_map, decide_eq_true_eq]

theorem map_replace_keys {κ α : Type} [DecidableEq κ] (key : κ) (v : α)
    (a : List (κ × α)) :
    (a.map (fun p => if p.1 = key then (key, v) else p)).map Prod.fst
      = a.map Prod.fst := by
  induction a with
  | nil => rfl
  | cons p t ih =>
    by_cases h : p.1 = key <;> simp [h, ih]

theorem alookup_map_replace_self {κ α : Type} [DecidableEq κ] (key : κ)
    (v : α) (a : List (κ × α)) (h : a.any (fun p => p.1 = key) = true) :
    alookup key (a.map (fun p => if p.1 = key then (key, v) else p))
      = some v := by
  induction a with
  | nil => cases h
  | cons p t ih =>
    by_cases hp : p.1 = key
    · simp [alookup, hp]
    · simp only [List.any_cons, Bool.or_eq_true] at h
      rcases h with h | h
      · exact absurd (by simpa using h) hp
      · simp [alookup, hp, ih h]

theorem alookup_map_replace_ne {κ α : Type} [DecidableEq κ] (key k : κ)
    (v : α) (a : List (κ × α)) (hne : k ≠ key) :
    alookup k (a.map (fun p => if p.1 = key then (key, v) else p))
      = alookup k a := by
  induction a with
  | nil => rfl
  | cons p t ih =>
    by_cases hp : p.1 = key
    · have : ¬key = k := fun h => hne h.symm
      simp [alookup, hp, this, ih]
    · by_cases hk : p.1 = k <;> simp [alookup, hp, hk, hne, ih]

theorem mergeStep_snd (st : List (ResultKey × Row) × List Row) (r : Row) :
    (mergeStep st r).2
      = match _row_key r with
        | none => st.2 ++ [r]
        | some _ => st.2 := by
  cases h : _row_key r with
  | none => simp [mergeStep, h]
  | some k =>
    by_cases hany : st.1.any (fun p => p.1 = k) = true <;>
      simp [mergeStep, h, hany]

theorem mergeStep_keys (st : List (ResultKey × Row) × List Row) (r : Row) :
    (mergeStep st r).1.map Prod.fst
      = match _row_key r with
        | none => st.1.map Prod.fst
        | some k =>
          if k ∈ st.1.map Prod.fst then st.1.map Prod.fst
          else st.1.map Prod.fst ++ [k] := by
  cases h : _row_key r with
  | none => simp [mergeStep, h]
  | some k =>
    by_cases hany : st.1.any (fun p => p.1 = k) = true
    · have hm : k ∈ st.1.map Prod.fst := (any_fst_iff_mem_keys k st.1).mp hany
      have hstep : (mergeStep st r).1
          = st.1.map (fun p => if p.1 = k then (k, r) else p) := by
        simp [mergeStep, h, hany]
      rw [hstep, map_replace_keys]
      simp [h, hm]
    · have hm : k ∉ st.1.map Prod.fst := fun hmem =>
        hany ((any_fst_iff_mem_keys k st.1).mpr hmem)
      have hstep : (mergeStep st r).1 = st.1 ++ [(k, r)] := by
        simp [mergeStep, h, hany]
      rw [hstep]
      simp [h, hm]

theorem mergeStep_lookup (st : List (ResultKey × Row) × List Row) (r : Row)
    (k : ResultKey) :
    alookup k (mergeStep st r).1
      = if _row_key r = some k then some r else alookup k st.1 := by
  cases h : _row_key r with
  | none => simp [mergeStep, h]
  | some kr =>
    by_cases hany : st.1.any (fun p => p.1 = kr) = true
    · have hstep : (mergeStep st r).1
          = st.1.map (fun p => if p.1 = kr then (kr, r) else p) := by
        simp [mergeStep, h, hany]
      rw [hstep]
      by_cases hk : kr = k
      · subst hk
        rw [alookup_map_replace_self kr r st.1 hany]
        simp
      · rw [alookup_map_replace_ne kr k r st.1 (fun he => hk he.symm)]
        have hks : ¬(some kr = some k) := by simpa using hk
        simp [hks]
    · have hstep : (mergeStep st r).1 = st.1 ++ [(kr, r)] := by
        simp [mergeStep, h, hany]
      have hnone : alookup kr st.1 = none :=
        alookup_eq_none_of_any_false kr st.1 (by
          revert hany
          cases st.1.any (fun p => p.1 = kr) <;> simp)
      rw [hstep, alookup_append]
      by_cases hk : kr = k
      · subst hk
        rw [hnone]
        simp [alookup]
      · have hks : ¬(some kr = some k) := by simpa using hk
        simp only [hks, if_false]
        cases hl : alookup k st.1 with
        | none => simp [alookup, hk]
        | some v => simp [alookup, hk]

theorem mergeStep_selfkey (st : List (ResultKey × Row) × List Row) (r : Row)
    (h : ∀ p ∈ st.1, _row_key p.2 = some p.1) :
    ∀ p ∈ (mergeStep st r).1, _row_key p.2 = some p.1 := by
  intro p hp
  cases hk : _row_key r with
  | none => simp only [mergeStep, hk] at hp; exact h p hp
  | some kr =>
    by_cases hany : st.1.any (fun q => q.1 = kr) = true
    · simp only [mergeStep, hk, hany, if_true] at hp
      obtain ⟨q, hq, hqp⟩ := List.mem_map.mp hp
      by_cases hq1 : q.1 = kr
      · rw [if_pos hq1] at hqp
        rw [← hqp]
        exact hk
      · rw [if_neg hq1] at hqp
        rw [← hqp]
        exact h q hq
    · simp only [mergeStep, hk, hany, if_false, Bool.false_eq_true] at hp
      rcases List.mem_append.mp hp with hp' | hp'
      · exact h p hp'
      · rcases List.mem_singleton.mp hp' with rfl
        exact hk

theorem mergeFold_snd (rows : List Row)
    (st : List (ResultKey × Row) × List Row) :
    (rows.foldl mergeStep st).2
      = st.2 ++ rows.filter (fun r => (_row_key r).isNone) := by
  induction rows generalizing st with
  | nil => simp
  | cons r t ih =>
    rw [List.foldl_cons, ih (mergeStep st r), mergeStep_snd]
    cases h : _row_key r <;> simp [h, List.filter_cons]

theorem mergeFold_keys (rows : List Row)
    (st : List (ResultKey × Row) × List Row) :
    (rows.foldl mergeStep st).1.map Prod.fst
      = fsAux (st.1.map Prod.fst) rows := by
  induction rows generalizing st with
  | nil => rfl
  | cons r t ih =>
    rw [List.foldl_cons, ih (mergeStep st r), mergeStep_keys]
    unfold fsAux
    rw [List.foldl_cons]

theorem mergeFold_selfkey (rows : List Row)
    (st : List (ResultKey × Row) × List Row)
    (h : ∀ p ∈ st.1, _row_key p.2 = some p.1) :
    ∀ p ∈ (rows.foldl mergeStep st).1, _row_key p.2 = some p.1 := by
  induction rows generalizing st with
  | nil => exact h
  | cons r t ih =>
    rw [List.foldl_cons]
    exact ih (mergeStep st r) (mergeStep_selfkey st r h)

theorem getLast?_cons_ne_none {α : Type} (x : α) (xs : List α) :
    (x :: xs).getLast? ≠ none := by
  induction xs generalizing x with
  | nil => simp
  | cons y ys ih => rw [List.getLast?_cons_cons]; exact ih y

theorem mem_of_getLast?_eq {α : Type} (l : List α) (x : α)
    (h : l.getLast? = some x) : x ∈ l := by
  obtain ⟨hne, hx⟩ :=
    List.mem_getLast?_eq_getLast (Option.mem_def.mpr h)
  rw [hx]
  exact List.getLast_mem hne

theorem lastWithKey_append (k : ResultKey) (l1 l2 : List Row) :
    lastWithKey k (l1 ++ l2)
      = match lastWithKey k l2 with
        | some x => some x
        | none => lastWithKey k l1 := by
  unfold lastWithKey
  rw [List.filter_append]
  cases h2 : List.filter (fun r => decide (_row_key r = some k)) l2 with
  | nil => simp
  | cons x xs =>
    rw [List.getLast?_append_of_ne_nil _ (List.cons_ne_nil x xs)]
    cases hl : (x :: xs).getLast? with
    | none => exact absurd hl (getLast?_cons_ne_none x xs)
    | some v => simp [hl]

theorem lastWithKey_key (k : ResultKey) (l : List Row) (r : Row)
    (h : lastWithKey k l = some r) : _row_key r = some k ∧ r ∈ l := by
  have hmem := mem_of_getLast?_eq _ _ h
  rw [List.mem_filter] at hmem
  exact ⟨by simpa using hmem.2, hmem.1⟩

theorem lastWithKey_isSome (k : ResultKey) (l : List Row) (r : Row)
    (hr : r ∈ l) (hk : _row_key r = some k) :
    ∃ x, lastWithKey k l = some x := by
  unfold lastWithKey
  have hne : List.filter (fun r => decide (_row_key r = some k)) l ≠ [] :=
    List.ne_nil_of_mem (List.mem_filter.mpr ⟨hr, by simp [hk]⟩)
  cases hfe : List.filter (fun r => decide (_row_key r = some k)) l with
  | nil => exact absurd hfe hne
  | cons x xs =>
    cases hl : (x :: xs).getLast? with
    | none => exact absurd hl (getLast?_cons_ne_none x xs)
    | some v => exact ⟨v, rfl⟩

theorem mergeFold_lookup (rows : List Row)
    (st : List (ResultKey × Row) × List Row) (k : ResultKey) :
    alookup k (rows.foldl mergeStep st).1
      = match lastWithKey k rows with
        | some r => some r
        | none => alookup k st.1 := by
  induction rows generalizing st with
  | nil => rfl
  | cons r t ih =>
    rw [List.foldl_cons, ih (mergeStep st r),
      show (r :: t) = [r] ++ t from rfl, lastWithKey_append]
    by_cases hk : _row_key r = some k
    · have h1 : lastWithKey k [r] = some r := by
        unfold lastWithKey
        simp [List.filter_cons, hk]
      rw [h1, mergeStep_lookup]
      cases hl : lastWithKey k t <;> simp [hl, hk]
    · have h1 : lastWithKey k [r] = none := by
        unfold lastWithKey
        simp [List.filter_cons, hk]
      rw [h1, mergeStep_lookup]
      cases hl : lastWithKey k t <;> simp [hl, hk]

theorem fsAux_subset (rows : List Row) (ks : List ResultKey) :
    ks ⊆ fsAux ks rows := by
  induction rows generalizing ks with
  | nil => exact fun _ h => h
  | cons r t ih =>
    intro x hx
    unfold fsAux
    rw [List.foldl_cons]
    cases h : _row_key r with
    | none => exact ih ks hx
    | some k =>
      by_cases hin : k ∈ ks
      · simp only [h, hin, if_true]
        exact ih ks hx
      · simp only [h, hin, if_false]
        exact ih (ks ++ [k]) (List.mem_append_left _ hx)

theorem fsAux_mem (rows : List Row) (ks : List ResultKey) (r : Row)
    (k : ResultKey) (hr : r ∈ rows) (hk : _row_key r = some k) :
    k ∈ fsAux ks rows := by
  induction rows generalizing ks with
  | nil => cases hr
  | cons r' t ih =>
    unfold fsAux
    rw [List.foldl_cons]
    rcases List.mem_cons.mp hr with rfl | hr'
    · rw [hk]
      by_cases hin : k ∈ ks
      · simp only [hin, if_true]
        exact fsAux_subset t ks hin
      · simp only [hin, if_false]
        exact fsAux_subset t (ks ++ [k])
          (List.mem_append_right _ (List.mem_singleton_self k))
    · cases h : _row_key r' with
      | none => exact ih ks hr'
      | some k' =>
        by_cases hin : k' ∈ ks
        · simp only [hin, if_true]; exact ih ks hr'
        · simp only [hin, if_false]; exact ih (ks ++ [k']) hr'

theorem fsAux_nodup (rows : List Row) (ks : List ResultKey)
    (h : ks.Nodup) : (fsAux ks rows).Nodup := by
  induction rows generalizing ks with
  | nil => exact h
  | cons r t ih =>
    unfold fsAux
    rw [List.foldl_cons]
    cases hk : _row_key r with
    | none => exact ih ks h
    | some k =>
      by_cases hin : k ∈ ks
      · simp only [hin, if_true]
        exact ih ks h
      · simp only [hin, if_false]
        exact ih (ks ++ [k]) (by simp [List.nodup_append, h, hin])

theorem fsAux_absorb (rows : List Row) (ks : List ResultKey)
    (h : ∀ r ∈ rows, ∀ k, _row_key r = some k → k ∈ ks) :
    fsAux ks rows = ks := by
  induction rows with
  | nil => rfl
  | cons r t ih =>
    unfold fsAux
    rw [List.foldl_cons]
    cases hk : _row_key r with
    | none => exact ih fun x hx => h x (List.mem_cons_of_mem _ hx)
    | some k =>
      have hin : k ∈ ks := h r (List.mem_cons_self _ _) k hk
      simp only [hin, if_true]
      exact ih fun x hx => h x (List.mem_cons_of_mem _ hx)

theorem alookup_eq_none_of_not_mem {κ α : Type} [DecidableEq κ] (k : κ)
    (a : List (κ × α)) (h : k ∉ a.map Prod.fst) : alookup k a = none := by
  apply alookup_eq_none_of_any_false
  cases hany : a.any (fun p => p.1 = k) with
  | false => rfl
  | true => exact absurd ((any_fst_iff_mem_keys k a).mp hany) h

theorem assoc_ext (a b : List (ResultKey × Row))
    (hk : a.map Prod.fst = b.map Prod.fst)
    (hnd : (a.map Prod.fst).Nodup)
    (hl : ∀ k, alookup k a = alookup k b) : a = b := by
  induction a generalizing b with
  | nil =>
    cases b with
    | nil => rfl
    | cons p t => cases hk
  | cons p t ih =>
    cases b with
    | nil => cases hk
    | cons p' t' =>
      simp only [List.map_cons, List.cons.injEq] at hk
      have hfst : p.1 = p'.1 := hk.1
      have hsnd : p.2 = p'.2 := by
        have h1 := hl p.1
        simp only [alookup, if_pos rfl] at h1
        rw [if_pos hfst.symm] at h1
        exact Option.some.inj h1
      have hpe : p = p' := Prod.ext hfst hsnd
      simp only [List.map_cons, List.nodup_cons] at hnd
      have htl : ∀ k, alookup k t = alookup k t' := by
        intro k
        by_cases hkp : k = p.1
        · subst hkp
          rw [alookup_eq_none_of_not_mem p.1 t hnd.1,
            alookup_eq_none_of_not_mem p.1 t' (hk.2 ▸ hnd.1)]
        · have h1 := hl k
          simp only [alookup] at h1
          rw [if_neg (fun he => hkp he.symm),
            if_neg (fun he => hkp (hfst ▸ he.symm))] at h1
          exact h1
      rw [hpe, ih t' hk.2 hnd.2 htl]

theorem assoc_snd_eq (a : List (ResultKey × Row))
    (hnd : (a.map Prod.fst).Nodup) :
    a.map Prod.snd
      = (a.map Prod.fst).filterMap (fun k => alookup k a) := by
  induction a with
  | nil => rfl
  | cons p t ih =>
    simp only [List.map_cons, List.nodup_cons] at hnd ⊢
    rw [List.filterMap_cons]
    have h1 : alookup p.1 (p :: t) = some p.2 := by simp [alookup]
    rw [h1]
    have h2 : (t.map Prod.fst).filterMap (fun k => alookup k (p :: t))
        = (t.map Prod.fst).filterMap (fun k => alookup k t) := by
      apply List.filterMap_congr
      intro k hkmem
      have : ¬p.1 = k := fun he => hnd.1 (he ▸ hkmem)
      simp [alookup, this]
    rw [h2, ih hnd.2]

theorem mergeFold_keyless (rows : List Row)
    (st : List (ResultKey × Row) × List Row)
    (h : ∀ r ∈ rows, _row_key r = none) :
    rows.foldl mergeStep st = (st.1, st.2 ++ rows) := by
  induction rows generalizing st with
  | nil => simp
  | cons r t ih =>
    rw [List.foldl_cons]
    have hr : _row_key r = none := h r (List.mem_cons_self _ _)
    have hstep : mergeStep st r = (st.1, st.2 ++ [r]) := by
      simp [mergeStep, hr]
    rw [hstep, ih _ (fun x hx => h x (List.mem_cons_of_mem _ hx))]
    simp

theorem mergeFold_assoc (a pre : List (ResultKey × Row)) (q : List Row)
    (hself : ∀ p ∈ a, _row_key p.2 = some p.1)
    (hnd : (a.map Prod.fst).Nodup)
    (hdisj : ∀ p ∈ a, p.1 ∉ pre.map Prod.fst) :
    (a.map Prod.snd).foldl mergeStep (pre, q) = (pre ++ a, q) := by
  induction a generalizing pre with
  | nil => simp
  | cons p t ih =>
    simp only [List.map_cons, List.foldl_cons]
    have hkey : _row_key p.2 = some p.1 :=
      hself p (List.mem_cons_self _ _)
    have hany : pre.any (fun x => x.1 = p.1) = false := by
      cases h : pre.any (fun x => x.1 = p.1) with
      | false => rfl
      | true =>
        exact absurd ((any_fst_iff_mem_keys p.1 pre).mp h)
          (hdisj p (List.mem_cons_self _ _))
    have hstep : mergeStep (pre, q) p.2 = (pre ++ [p], q) := by
      simp only [mergeStep, hkey, hany]
      simp
    rw [hstep]
    simp only [List.map_cons, List.nodup_cons] at hnd
    have hdisj' : ∀ x ∈ t, x.1 ∉ (pre ++ [p]).map Prod.fst := by
      intro x hx
      rw [List.map_append, List.mem_append]
      rintro (h1 | h1)
      · exact hdisj x (List.mem_cons_of_mem _ hx) h1
      · rcases List.mem_singleton.mp h1 with h1
        exact hnd.1 (h1 ▸ List.mem_map_of_mem Prod.fst hx)
    rw [ih (pre ++ [p])
      (fun x hx => hself x (List.mem_cons_of_mem _ hx)) hnd.2 hdisj']
    simp


theorem mergeResults_eq (newRows existingRows : List Row) :
    mergeResults newRows existingRows
      = (existingRows ++ newRows).filter (fun r => (_row_key r).isNone)
        ++ (firstSeenKeys (existingRows ++ newRows)).filterMap
            (fun k => lastWithKey k (existingRows ++ newRows)) := by
  have hbase : mergeResults newRows existingRows
      = ((existingRows ++ newRows).foldl mergeStep ([], [])).2
        ++ ((existingRows ++ newRows).foldl mergeStep ([], [])).1.map
            Prod.snd := by
    simp only [mergeResults]
    rw [List.foldl_append]
  have hnd : (((existingRows ++ newRows).foldl mergeStep
      ([], [])).1.map Prod.fst).Nodup := by
    rw [mergeFold_keys]
    exact fsAux_nodup _ _ List.nodup_nil
  rw [hbase, mergeFold_snd, assoc_snd_eq _ hnd, mergeFold_keys]
  show [] ++ _ = _
  rw [List.nil_append]
  congr 1
  apply List.filterMap_congr
  intro k _
  rw [mergeFold_lookup]
  cases hlw : lastWithKey k (existingRows ++ newRows) <;> simp [alookup]

/-- C4: the merged results list is exactly the passthrough rows (rows from
either document without a valid Identity Key, existing-document rows first,
preserved verbatim and never deduplicated) followed by the keyed rows in
insertion order of first-seen key — a replaced row retaining the position of
the row it replaced, each key mapping to the last row carrying it — and the
keyed portion contains no two rows with the same Identity Key. -/
theorem merge_row_order (newRows existingRows : List Row) :
    mergeResults newRows existingRows
      = (existingRows ++ newRows).filter (fun r => (_row_key r).isNone)
        ++ (firstSeenKeys (existingRows ++ newRows)).filterMap
            (fun k => lastWithKey k (existingRows ++ newRows))
    ∧ (firstSeenKeys (existingRows ++ newRows)).Nodup
    ∧ ∀ k ∈ firstSeenKeys (existingRows ++ newRows), ∀ r,
        lastWithKey k (existingRows ++ newRows) = some r →
          _row_key r = some k ∧ r ∈ existingRows ++ newRows :=
  ⟨mergeResults_eq newRows existingRows,
   fsAux_nodup _ _ List.nodup_nil,
   fun k _ r hr => lastWithKey_key k _ r hr⟩

/-- Witness for C4 at concrete two-row inputs. -/
theorem merge_row_order_witness :
    ("m", "g", "i", "", "p") ∈ firstSeenKeys ([rowOther] ++ [rowNoLabel])
    ∧ lastWithKey ("m", "g", "i", "", "p") ([rowOther] ++ [rowNoLabel])
        = some rowNoLabel
    ∧ (_row_key rowNoLabel = some ("m", "g", "i", "", "p")
        ∧ rowNoLabel ∈ [rowOther] ++ [rowNoLabel]) :=
  ⟨by decide, by decide,
   (merge_row_order [rowNoLabel] [rowOther]).2.2 _ (by decide) _ (by decide)⟩

/-- C3: merging the same new-run rows twice in a row produces the same final
results list as merging once, provided every new-run row yields a valid
Identity Key — a key collision replaces the stored row, never duplicates
it. -/
theorem merge_idempotent (newRows existingRows : List Row)
    (h : ∀ r ∈ newRows, (_row_key r).isSome = true) :
    mergeResults newRows (mergeResults newRows existingRows)
      = mergeResults newRows existingRows := by
  have hunfold : ∀ ex : List Row, mergeResults newRows ex
      = ((ex ++ newRows).foldl mergeStep ([], [])).2
        ++ ((ex ++ newRows).foldl mergeStep ([], [])).1.map Prod.snd := by
    intro ex
    simp only [mergeResults]
    rw [List.foldl_append]
  set st := ((existingRows ++ newRows).foldl mergeStep
    (([], []) : List (ResultKey × Row) × List Row)) with hst
  have hkeys : st.1.map Prod.fst = fsAux [] (existingRows ++ newRows) := by
    rw [hst, mergeFold_keys]
    rfl
  have hnd : (st.1.map Prod.fst).Nodup := by
    rw [hkeys]
    exact fsAux_nodup _ _ List.nodup_nil
  have hself : ∀ p ∈ st.1, _row_key p.2 = some p.1 := by
    rw [hst]
    exact mergeFold_selfkey _ _ (by intro p hp; cases hp)
  have hsnd : st.2
      = (existingRows ++ newRows).filter (fun r => (_row_key r).isNone) := by
    rw [hst, mergeFold_snd]
    rfl
  have hkeyless : ∀ r ∈ st.2, _row_key r = none := by
    intro r hr
    rw [hsnd] at hr
    have hp := List.of_mem_filter hr
    exact Option.isNone_iff_eq_none.mp (by simpa using hp)
  have hinner : (st.2 ++ st.1.map Prod.snd).foldl mergeStep ([], []) = st := by
    rw [List.foldl_append, mergeFold_keyless st.2 _ hkeyless]
    show (st.1.map Prod.snd).foldl mergeStep ([], st.2) = st
    rw [mergeFold_assoc st.1 [] st.2 hself hnd (by intro p _; simp)]
    simp
  have habsorb : fsAux (st.1.map Prod.fst) newRows = st.1.map Prod.fst := by
    apply fsAux_absorb
    intro r hr k hk
    rw [hkeys]
    exact fsAux_mem _ [] r k (List.mem_append_right _ hr) hk
  have hBkeys : (newRows.foldl mergeStep st).1.map Prod.fst
      = st.1.map Prod.fst := by
    rw [mergeFold_keys, habsorb]
  have hBlook : ∀ k, alookup k (newRows.foldl mergeStep st).1
      = alookup k st.1 := by
    intro k
    rw [mergeFold_lookup]
    cases hlw : lastWithKey k newRows with
    | none => simp
    | some x =>
      have h2 : alookup k st.1 = some x := by
        rw [hst, mergeFold_lookup, lastWithKey_append, hlw]
      simp [h2]
  have hB1 : (newRows.foldl mergeStep st).1 = st.1 :=
    assoc_ext _ _ hBkeys (by rw [hBkeys]; exact hnd) hBlook
  have hB2 : (newRows.foldl mergeStep st).2 = st.2 := by
    rw [mergeFold_snd]
    have hnil : newRows.filter (fun r => (_row_key r).isNone) = [] := by
      rw [List.filter_eq_nil_iff]
      intro r hr
      have hs := h r hr
      cases hk : _row_key r with
      | none => rw [hk] at hs; cases hs
      | some k => simp [hk]
    rw [hnil, List.append_nil]
  have hm : mergeResults newRows existingRows
      = st.2 ++ st.1.map Prod.snd := by
    rw [hunfold existingRows, hst]
  rw [hm]
  have houter : ((st.2 ++ st.1.map Prod.snd) ++ newRows).foldl mergeStep
      ([], []) = newRows.foldl mergeStep st := by
    rw [List.foldl_append, hinner]
  rw [hunfold (st.2 ++ st.1.map Prod.snd), houter, hB1, hB2]

/-- Witness for C3 at concrete one-row inputs. -/
theorem merge_idempotent_witness :
    mergeResults [rowNoLabel] (mergeResults [rowNoLabel] [rowOther])
      = mergeResults [rowNoLabel] [rowOther] :=
  merge_idempotent [rowNoLabel] [rowOther] (by decide)

theorem map_fst_preserve {κ α : Type} (f : κ × α → κ × α)
    (l : List (κ × α)) (h : ∀ p, (f p).1 = p.1) :
    (l.map f).map Prod.fst = l.map Prod.fst := by
  induction l with
  | nil => rfl
  | cons p t ih => simp [h, ih]

theorem accOver_append_single (m : String) (p : List Row) (r : Row) :
    accOver m (p ++ [r])
      = if r.model = some m then updateAcc (accOver m p) r
        else accOver m p := by
  unfold accOver
  rw [List.filter_append, List.foldl_append]
  by_cases h : r.model = some m
  · simp [List.filter_cons, h]
  · simp [List.filter_cons, h]

theorem accOver_zero_of_absent (m : String) (pr : List Row)
    (h : ∀ x ∈ pr, ¬x.model = some m) : accOver m pr = accZero := by
  unfold accOver
  have hf : pr.filter (fun r => decide (r.model = some m)) = [] := by
    rw [List.filter_eq_nil_iff]
    intro x hx
    simpa using h x hx
  rw [hf]
  rfl

theorem stepModel_inv (assoc : List (String × MAcc)) (pr : List Row)
    (r : Row)
    (h1 : ∀ p ∈ assoc, p.2 = accOver p.1 pr)
    (h2 : ∀ x ∈ pr, ∀ m, x.model = some m →
      assoc.any (fun q => q.1 = m) = true) :
    (∀ p ∈ stepModel assoc r, p.2 = accOver p.1 (pr ++ [r]))
    ∧ ∀ x ∈ pr ++ [r], ∀ m, x.model = some m →
        (stepModel assoc r).any (fun q => q.1 = m) = true := by
  cases hr : r.model with
  | none =>
    have hs : stepModel assoc r = assoc := by simp [stepModel, hr]
    rw [hs]
    constructor
    · intro p hp
      rw [accOver_append_single, hr]
      simp only [reduceCtorEq, if_false]
      exact h1 p hp
    · intro x hx m hm
      rcases List.mem_append.mp hx with hx' | hx'
      · exact h2 x hx' m hm
      · rcases List.mem_singleton.mp hx' with rfl
        rw [hr] at hm
        cases hm
  | some mr =>
    have key : ∀ b : List (String × MAcc),
        (∀ p ∈ b, p.2 = accOver p.1 pr) →
        b.any (fun q => q.1 = mr) = true →
        (∀ m, assoc.any (fun q => q.1 = m) = true →
          b.any (fun q => q.1 = m) = true) →
        (∀ p ∈ b.map
            (fun p => if p.1 = mr then (mr, updateAcc p.2 r) else p),
            p.2 = accOver p.1 (pr ++ [r]))
        ∧ ∀ x ∈ pr ++ [r], ∀ m, x.model = some m →
            (b.map
              (fun p => if p.1 = mr then (mr, updateAcc p.2 r) else p)).any
              (fun q => q.1 = m) = true := by
      intro b hb1 hbany hbsup
      have hkeys : (b.map
          (fun p => if p.1 = mr then (mr, updateAcc p.2 r) else p)).map
            Prod.fst = b.map Prod.fst :=
        map_fst_preserve _ b (fun p => by
          by_cases hpm : p.1 = mr <;> simp [hpm])
      constructor
      · intro p hp
        obtain ⟨q, hq, hfq⟩ := List.mem_map.mp hp
        by_cases hq1 : q.1 = mr
        · rw [if_pos hq1] at hfq
          rw [← hfq]
          show updateAcc q.2 r = accOver mr (pr ++ [r])
          rw [accOver_append_single, hr, if_pos rfl, hb1 q hq, hq1]
        · rw [if_neg hq1] at hfq
          rw [← hfq]
          show q.2 = accOver q.1 (pr ++ [r])
          rw [accOver_append_single, hr,
            if_neg (fun he => hq1 (Option.some.inj he).symm)]
          exact hb1 q hq
      · intro x hx m hm
        have htrans : b.any (fun q => q.1 = m) = true →
            (b.map
              (fun p => if p.1 = mr then (mr, updateAcc p.2 r) else p)).any
              (fun q => q.1 = m) = true := by
          intro hb
          rw [any_fst_iff_mem_keys] at hb ⊢
          rw [hkeys]
          exact hb
        rcases List.mem_append.mp hx with hx' | hx'
        · exact htrans (hbsup m (h2 x hx' m hm))
        · rcases List.mem_singleton.mp hx' with rfl
          rw [hr] at hm
          rcases Option.some.inj hm with rfl
          exact htrans hbany
    by_cases hany : assoc.any (fun q => q.1 = mr) = true
    · have hs : stepModel assoc r = assoc.map
          (fun p => if p.1 = mr then (mr, updateAcc p.2 r) else p) := by
        simp [stepModel, hr, hany]
      rw [hs]
      exact key assoc h1 hany (fun _ h => h)
    · have hs : stepModel assoc r = (assoc ++ [(mr, accZero)]).map
          (fun p => if p.1 = mr then (mr, updateAcc p.2 r) else p) := by
        simp [stepModel, hr, hany]
      rw [hs]
      apply key (assoc ++ [(mr, accZero)])
      · intro p hp
        rcases List.mem_append.mp hp with hp' | hp'
        · exact h1 p hp'
        · rcases List.mem_singleton.mp hp' with rfl
          show accZero = accOver mr pr
          rw [accOver_zero_of_absent mr pr]
          intro x hx hxm
          exact hany (h2 x hx mr hxm)
      · simp [List.any_append]
      · intro m hmem
        simp [List.any_append, hmem]

theorem foldModel_inv (rows : List Row) (assoc : List (String × MAcc))
    (pr : List Row)
    (h1 : ∀ p ∈ assoc, p.2 = accOver p.1 pr)
    (h2 : ∀ x ∈ pr, ∀ m, x.model = some m →
      assoc.any (fun q => q.1 = m) = true) :
    (∀ p ∈ rows.foldl stepModel assoc, p.2 = accOver p.1 (pr ++ rows))
    ∧ ∀ x ∈ pr ++ rows, ∀ m, x.model = some m →
        (rows.foldl stepModel assoc).any (fun q => q.1 = m) = true := by
  induction rows generalizing assoc pr with
  | nil =>
    simp only [List.foldl_nil, List.append_nil]
    exact ⟨h1, h2⟩
  | cons r t ih =>
    rw [List.foldl_cons]
    obtain ⟨s1, s2⟩ := stepModel_inv assoc pr r h1 h2
    obtain ⟨f1, f2⟩ := ih (stepModel assoc r) (pr ++ [r]) s1 s2
    constructor
    · intro p hp
      have hres := f1 p hp
      rwa [List.append_assoc, List.singleton_append] at hres
    · intro x hx m hm
      exact f2 x
        (by rw [List.append_assoc, List.singleton_append]; exact hx) m hm

theorem initAssoc_entries (labels : List String) :
    ∀ p ∈ initAssoc labels, p.2 = accZero := by
  have gen : ∀ (ls : List String) (a : List (String × MAcc)),
      (∀ p ∈ a, p.2 = accZero) →
      ∀ p ∈ ls.foldl
          (fun a l =>
            if a.any (fun p => p.1 = l) then a else a ++ [(l, accZero)]) a,
        p.2 = accZero := by
    intro ls
    induction ls with
    | nil => intro a ha; exact ha
    | cons l t ih =>
      intro a ha
      rw [List.foldl_cons]
      apply ih
      intro p hp
      by_cases h : a.any (fun q => q.1 = l) = true
      · rw [if_pos h] at hp
        exact ha p hp
      · rw [if_neg h] at hp
        rcases List.mem_append.mp hp with hp' | hp'
        · exact ha p hp'
        · rcases List.mem_singleton.mp hp' with rfl
          rfl
  intro p hp
  exact gen labels [] (by intro q hq; cases hq) p hp

theorem initFold_any_mono (ls : List String) (a : List (String × MAcc))
    (k : String) (h : a.any (fun q => q.1 = k) = true) :
    (ls.foldl
      (fun a lb =>
        if a.any (fun p => p.1 = lb) then a else a ++ [(lb, accZero)])
      a).any (fun q => q.1 = k) = true := by
  induction ls generalizing a with
  | nil => exact h
  | cons lb t ih =>
    rw [List.foldl_cons]
    apply ih
    by_cases hb : a.any (fun p => p.1 = lb) = true
    · rw [if_pos hb]; exact h
    · rw [if_neg hb]; simp [List.any_append, h]

theorem initAssoc_any (labels : List String) (l : String) (hl : l ∈ labels) :
    (initAssoc labels).any (fun q => q.1 = l) = true := by
  have gen : ∀ (ls : List String) (a : List (String × MAcc)) (k : String),
      k ∈ ls →
      (ls.foldl
        (fun a lb =>
          if a.any (fun p => p.1 = lb) then a else a ++ [(lb, accZero)])
        a).any (fun q => q.1 = k) = true := by
    intro ls
    induction ls with
    | nil => intro a k h; cases h
    | cons lb t ih =>
      intro a k hk
      rw [List.foldl_cons]
      rcases List.mem_cons.mp hk with rfl | hk'
      · apply initFold_any_mono
        by_cases hb : a.any (fun p => p.1 = k) = true
        · rw [if_pos hb]; exact hb
        · rw [if_neg hb]; simp [List.any_append]
      · exact ih _ k hk'
  exact gen labels [] l hl

theorem stepModel_any_mono (assoc : List (String × MAcc)) (r : Row)
    (k : String) (h : assoc.any (fun q => q.1 = k) = true) :
    (stepModel assoc r).any (fun q => q.1 = k) = true := by
  cases hr : r.model with
  | none => simpa [stepModel, hr] using h
  | some mr =>
    have htrans : ∀ b : List (String × MAcc),
        b.any (fun q => q.1 = k) = true →
        (b.map
          (fun p => if p.1 = mr then (mr, updateAcc p.2 r) else p)).any
          (fun q => q.1 = k) = true := by
      intro b hb
      rw [any_fst_iff_mem_keys] at hb ⊢
      rw [map_fst_preserve _ b (fun p => by
        by_cases hpm : p.1 = mr <;> simp [hpm])]
      exact hb
    by_cases hany : assoc.any (fun q => q.1 = mr) = true
    · have hs : stepModel assoc r = assoc.map
          (fun p => if p.1 = mr then (mr, updateAcc p.2 r) else p) := by
        simp [stepModel, hr, hany]
      rw [hs]
      exact htrans assoc h
    · have hs : stepModel assoc r = (assoc ++ [(mr, accZero)]).map
          (fun p => if p.1 = mr then (mr, updateAcc p.2 r) else p) := by
        simp [stepModel, hr, hany]
      rw [hs]
      exact htrans _ (by simp [List.any_append, h])

theorem foldModel_any_mono (rows : List Row)
    (assoc : List (String × MAcc)) (k : String)
    (h : assoc.any (fun q => q.1 = k) = true) :
    (rows.foldl stepModel assoc).any (fun q => q.1 = k) = true := by
  induction rows generalizing assoc with
  | nil => exact h
  | cons r t ih =>
    rw [List.foldl_cons]
    exact ih (stepModel assoc r) (stepModel_any_mono assoc r k h)

theorem recompute_model_summaries_spec (rows : List Row)
    (labels : List String) :
    (∀ p ∈ recompute_model_summaries rows labels,
        p.2 = modelSummaryOfAcc (accOver p.1 rows))
    ∧ (∀ l ∈ labels,
        ∃ s, (l, s) ∈ recompute_model_summaries rows labels)
    ∧ ∀ r ∈ rows, ∀ m, r.model = some m →
        ∃ s, (m, s) ∈ recompute_model_summaries rows labels := by
  obtain ⟨f1, f2⟩ := foldModel_inv rows (initAssoc labels) []
    (fun p hp => (initAssoc_entries labels p hp).trans rfl)
    (fun x hx => absurd hx (List.not_mem_nil x))
  have hpick : ∀ m : String,
      (rows.foldl stepModel (initAssoc labels)).any
        (fun q => q.1 = m) = true →
      ∃ s, (m, s) ∈ recompute_model_summaries rows labels := by
    intro m hany
    rw [any_fst_iff_mem_keys] at hany
    obtain ⟨q, hq, hq1⟩ := List.mem_map.mp hany
    refine ⟨modelSummaryOfAcc q.2, ?_⟩
    unfold recompute_model_summaries
    exact List.mem_map.mpr ⟨q, hq, by rw [hq1]⟩
  refine ⟨?_, ?_, ?_⟩
  · intro p hp
    obtain ⟨q, hq, hfq⟩ :=
      List.mem_map.mp (show p ∈ (rows.foldl stepModel
        (initAssoc labels)).map
          (fun p => (p.1, modelSummaryOfAcc p.2)) from hp)
    have hacc := f1 q hq
    rw [List.nil_append] at hacc
    rw [← hfq]
    show modelSummaryOfAcc q.2 = modelSummaryOfAcc (accOver q.1 rows)
    rw [hacc]
  · intro l hl
    have hany := foldModel_any_mono rows (initAssoc labels) l
      (initAssoc_any labels l hl)
    exact hpick l hany
  · intro r hr m hm
    have hany := f2 r (by rw [List.nil_append]; exact hr) m hm
    exact hpick m hany

/-- C1 counterexample: after merging `newDocC1` into `exDocC1`, the merged
document's group-summary entry for `model-a` (overlay of the two persisted
maps: the empty group map) differs from what recomputing group summaries
from the merged row set yields (a `g1` cell aggregated from the `model-a`
row), so group-level summaries are not recomputed from the merged rows. -/
theorem merge_group_summaries_not_recomputed :
    alookup "model-a" (mergeExistingResults newDocC1 exDocC1).group_summaries
      ≠ alookup "model-a"
        (recompute_group_summaries
          (mergeExistingResults newDocC1 exDocC1).results) := by
  decide

/-- C1 (amended): after `_merge_existing_results`, the model-level summaries
are fully recomputed from the merged row set — every summary entry equals the
aggregate over exactly the merged rows carrying its label, and an entry
exists for every truthy label of the unioned roster and for every model
label appearing on a merged row — but the group-level summaries are NOT
recomputed: they are the existing document's group-summary map overlaid with
the new document's (per top-level model key), taken verbatim from the two
documents' prior maps. -/
theorem merge_summaries_amended (newData existingData : ResultsData) :
    (mergeExistingResults newData existingData).group_summaries
      = dictUpdate existingData.group_summaries newData.group_summaries
    ∧ (∀ p ∈ (mergeExistingResults newData existingData).model_summaries,
        p.2 = modelSummaryOfAcc
          (accOver p.1 (mergeExistingResults newData existingData).results))
    ∧ (∀ l ∈ (mergeRoster newData.models existingData.models).2,
        ∃ s, (l, s) ∈
          (mergeExistingResults newData existingData).model_summaries)
    ∧ ∀ r ∈ (mergeExistingResults newData existingData).results, ∀ m,
        r.model = some m →
          ∃ s, (m, s) ∈
            (mergeExistingResults newData existingData).model_summaries := by
  have hms : (mergeExistingResults newData existingData).model_summaries
      = recompute_model_summaries
          (mergeResults newData.results existingData.results)
          (mergeRoster newData.models existingData.models).2 := rfl
  have hrs : (mergeExistingResults newData existingData).results
      = mergeResults newData.results existingData.results := rfl
  have hgs : (mergeExistingResults newData existingData).group_summaries
      = dictUpdate existingData.group_summaries newData.group_summaries :=
    rfl
  obtain ⟨h1, h2, h3⟩ := recompute_model_summaries_spec
    (mergeResults newData.results existingData.results)
    (mergeRoster newData.models existingData.models).2
  refine ⟨hgs, ?_, ?_, ?_⟩
  · rw [hms, hrs]
    exact h1
  · intro l hl
    rw [hms]
    exact h2 l hl
  · intro r hr m hm
    rw [hms]
    exact h3 r (hrs ▸ hr) m hm

/-- Witness for C1 at the concrete documents: the merged `model-a` summary
exists and equals the aggregate over exactly the merged rows labelled
`model-a`. -/
theorem merge_summaries_amended_witness :
    ∃ s, ("model-a", s) ∈
        (mergeExistingResults newDocC1 exDocC1).model_summaries
      ∧ s = modelSummaryOfAcc
          (accOver "model-a"
            (mergeExistingResults newDocC1 exDocC1).results) := by
  obtain ⟨-, h2, h3, -⟩ := merge_summaries_amended newDocC1 exDocC1
  obtain ⟨s, hs⟩ := h3 "model-a" (by decide)
  exact ⟨s, hs, h2 _ hs⟩

/-- C8 counterexample: `aggregate_metrics` produces no aggregate for the
numeric fields `char_count_reference` / `word_count_reference` of the
metrics block, even on a non-empty input whose block carries them. -/
theorem aggregate_metrics_missing_count_fields :
    alookup "char_count_reference_mean" (aggregate_metrics [scoreC8]) = none
    ∧ alookup "word_count_reference_mean" (aggregate_metrics [scoreC8]) = none
    ∧ scoreC8.char_count_reference = 5
    ∧ scoreC8.word_count_reference = 2 := by
  decide

/-- C8 (amended): `aggregate_metrics` on the empty list returns the empty
summary (no fabricated defaults, no division by zero), and on any non-empty
list returns the mean, median, min, and max for each of the five float score
fields and for `levenshtein_distance` — but not for the reference-count
fields `char_count_reference` and `word_count_reference`. -/
theorem aggregate_metrics_spec :
    aggregate_metrics [] = []
    ∧ ∀ (s : MetricScores) (l : List MetricScores),
        aggregate_metrics (s :: l)
          = [("cer_mean", meanQ ((s :: l).map (fun x => x.cer))),
             ("cer_median", medianQ ((s :: l).map (fun x => x.cer))),
             ("cer_min", minQ ((s :: l).map (fun x => x.cer))),
             ("cer_max", maxQ ((s :: l).map (fun x => x.cer))),
             ("wer_mean", meanQ ((s :: l).map (fun x => x.wer))),
             ("wer_median", medianQ ((s :: l).map (fun x => x.wer))),
             ("wer_min", minQ ((s :: l).map (fun x => x.wer))),
             ("wer_max", maxQ ((s :: l).map (fun x => x.wer))),
             ("cer_case_insensitive_mean",
               meanQ ((s :: l).map (fun x => x.cer_case_insensitive))),
             ("cer_case_insensitive_median",
               medianQ ((s :: l).map (fun x => x.cer_case_insensitive))),
             ("cer_case_insensitive_min",
               minQ ((s :: l).map (fun x => x.cer_case_insensitive))),
             ("cer_case_insensitive_max",
               maxQ ((s :: l).map (fun x => x.cer_case_insensitive))),
             ("wer_case_insensitive_mean",
               meanQ ((s :: l).map (fun x => x.wer_case_insensitive))),
             ("wer_case_insensitive_median",
               medianQ ((s :: l).map (fun x => x.wer_case_insensitive))),
             ("wer_case_insensitive_min",
               minQ ((s :: l).map (fun x => x.wer_case_insensitive))),
             ("wer_case_insensitive_max",
               maxQ ((s :: l).map (fun x => x.wer_case_insensitive))),
             ("normalized_levenshtein_similarity_mean",
               meanQ ((s :: l).map
                 (fun x => x.normalized_levenshtein_similarity))),
             ("normalized_levenshtein_similarity_median",
               medianQ ((s :: l).map
                 (fun x => x.normalized_levenshtein_similarity))),
             ("normalized_levenshtein_similarity_min",
               minQ ((s :: l).map
                 (fun x => x.normalized_levenshtein_similarity))),
             ("normalized_levenshtein_similarity_max",
               maxQ ((s :: l).map
                 (fun x => x.normalized_levenshtein_similarity))),
             ("levenshtein_distance_mean",
               meanQ ((s :: l).map
                 (fun x => (x.levenshtein_distance : ℚ)))),
             ("levenshtein_distance_median",
               medianQ ((s :: l).map
                 (fun x => (x.levenshtein_distance : ℚ)))),
             ("levenshtein_distance_min",
               minQ ((s :: l).map (fun x => (x.levenshtein_distance : ℚ)))),
             ("levenshtein_distance_max",
               maxQ ((s :: l).map
                 (fun x => (x.levenshtein_distance : ℚ))))] := by
  refine ⟨rfl, fun s l => ?_⟩
  rfl

theorem recomputeStep_eq (normalize : String → String)
    (computeM : String → String → MetricScores) (fs : FSMap)
    (configDir : String) (st : List Row × ℕ × ℕ) (row : Row) :
    recomputeStep normalize computeM fs configDir st row
      = (st.1 ++ [rowAfterRecompute normalize computeM fs configDir row],
         st.2.1 + (if rowSkips fs configDir row then 0 else 1),
         st.2.2 + (if rowSkips fs configDir row then 1 else 0)) := by
  by_cases h1 : (match row.error with
      | some e => !(pyStrip e).data.isEmpty
      | none => false) = true
  · simp [recomputeStep, rowSkips, rowAfterRecompute, h1]
  · by_cases h2 : (match row.model_output with
        | some s => (pyStrip s).data.isEmpty
        | none => true) = true
    · simp [recomputeStep, rowSkips, rowAfterRecompute, h1, h2]
    · by_cases h3 : (match row.ground_truth_file with
          | some s => (pyStrip s).data.isEmpty
          | none => true) = true
      · simp [recomputeStep, rowSkips, rowAfterRecompute, h1, h2, h3]
      · cases hfs : fs (resolvePath configDir
            (orEmpty row.ground_truth_file)) with
        | none =>
          simp [recomputeStep, rowSkips, rowAfterRecompute, h1, h2, h3, hfs]
        | some txt =>
          simp [recomputeStep, rowSkips, rowAfterRecompute, h1, h2, h3, hfs]

theorem recomputeFold_eq (normalize : String → String)
    (computeM : String → String → MetricScores) (fs : FSMap)
    (configDir : String) (rows : List Row) (acc : List Row) (a b : ℕ) :
    rows.foldl (recomputeStep normalize computeM fs configDir) (acc, a, b)
      = (acc ++ rows.map (rowAfterRecompute normalize computeM fs configDir),
         a + rows.countP (fun r => !rowSkips fs configDir r),
         b + rows.countP (fun r => rowSkips fs configDir r)) := by
  induction rows generalizing acc a b with
  | nil => simp
  | cons r t ih =>
    rw [List.foldl_cons, recomputeStep_eq, ih]
    by_cases hs : rowSkips fs configDir r = true <;>
      simp [List.countP_cons, hs] <;> omega

/-- C7: `recompute_comparisons` processes each row as specified — a row with
a non-empty error, or empty/missing output, or an empty/missing ground-truth
path, or a ground-truth file absent from the filesystem (resolved against
the base directory when relative) gets null metrics and is counted skipped;
every other row gets its reference text refreshed to the normalized file
contents and its metrics recomputed against the stored model output, counted
recomputed — and the function returns (recomputed-count, skipped-count). -/
theorem recompute_comparisons_spec (normalize : String → String)
    (computeM : String → String → MetricScores) (fs : FSMap)
    (configDir : String) (data : ResultsData) :
    (recompute_comparisons normalize computeM fs configDir data).1.results
      = data.results.map (rowAfterRecompute normalize computeM fs configDir)
    ∧ (recompute_comparisons normalize computeM fs configDir data).2.1
        = data.results.countP (fun r => !rowSkips fs configDir r)
    ∧ (recompute_comparisons normalize computeM fs configDir data).2.2
        = data.results.countP (fun r => rowSkips fs configDir r) := by
  have h := recomputeFold_eq normalize computeM fs configDir
    data.results [] 0 0
  unfold recompute_comparisons
  rw [h]
  simp

theorem tempPathOf_ne (p : String) : tempPathOf p ≠ p := by
  intro h
  have hlen := congrArg String.length h
  simp [tempPathOf, String.length_append] at hlen
  exact absurd hlen (by decide)

theorem persistSteps_crash_safe (content path : String) (fs : FSMap) (k : ℕ)
    (hk : k ≤ 2) :
    runPrefix (persistSteps content path) k fs path = fs path := by
  have hne : ¬(path = tempPathOf path) := fun h => tempPathOf_ne path h.symm
  interval_cases k
  · rfl
  · simp [runPrefix, persistSteps, hne]
  · simp [runPrefix, persistSteps, hne]

theorem persistSteps_complete (content path : String) (fs : FSMap) :
    runPrefix (persistSteps content path) 3 fs path = some content := by
  simp [runPrefix, persistSteps]

/-- C5: both `write_results` and `write_results_data` persist through the
same step sequence — serialize to the `.tmp` sibling of the target path,
fsync, rename over the target — and a crash at any point before the rename
step (running only a proper prefix of the steps) leaves the previously
persisted document at the target path unchanged; the temp path always
differs from the target path, and the completed sequence installs the
serialized document at the target. -/
theorem write_results_atomic (encode : ResultsData → String)
    (data : ResultsData) (existing : Option ResultsData) (path : String)
    (fs : FSMap) (k : ℕ) (hk : k ≤ 2) :
    runPrefix (write_results_data encode data path) k fs path = fs path
    ∧ runPrefix (write_results encode data existing path) k fs path = fs path
    ∧ tempPathOf path ≠ path
    ∧ runPrefix (write_results_data encode data path) 3 fs path
        = some (encode data) :=
  ⟨persistSteps_crash_safe (encode data) path fs k hk,
   persistSteps_crash_safe _ path fs k hk,
   tempPathOf_ne path,
   persistSteps_complete (encode data) path fs⟩

/-- Witness for C5: a crash after writing and fsyncing the temp file (two of
the three steps) leaves the target untouched, and the full sequence installs
the document. -/
theorem write_results_atomic_witness :
    runPrefix (write_results_data (fun _ => "doc") {} "out.json") 2
        (fun _ => none) "out.json"
      = (fun _ => (none : Option String)) "out.json"
    ∧ runPrefix (write_results (fun _ => "doc") {} none "out.json") 2
        (fun _ => none) "out.json"
      = (fun _ => (none : Option String)) "out.json"
    ∧ tempPathOf "out.json" ≠ "out.json"
    ∧ runPrefix (write_results_data (fun _ => "doc") {} "out.json") 3
        (fun _ => none) "out.json" = some "doc" :=
  write_results_atomic (fun _ => "doc") {} none "out.json"
    (fun _ => none) 2 (by decide)
